import Mathlib

/-!
# vulcanizedb: receipt normalizer and derived-record store

A shallow embedding of

* `pkg/geth/converters/common/receipt_converter.go` (the receipt normalizer), and
* the block registry / token-supply repository exercised by
  `examples/erc20_watcher/every_block/repository_test.go`.

Conventions.

* A Go `byte` is `Fin 256`; Go `uint`/`uint64` is `Fin (2^64)` and Go `int` is a
  64-bit two's-complement integer, represented as an `Int` in `[-2^63, 2^63)`.
* Go strings that hold ASCII text are Lean `String`s.
* A Go pointer is an `Option`; dereferencing `none` is a run-time failure, so
  a function that may dereference a nil pointer returns an `Option` whose
  `none` stands for that failure.
* Slices are lists (a nil slice and an empty slice are both `[]`).
-/

namespace Vulcanize

/-- A Go `byte`. -/
abbrev Byte := Fin 256

/-- A Go `uint64` (and `uint` on a 64-bit platform). -/
abbrev Uint64 := Fin 18446744073709551616

/-- Truncation of a natural number to a byte. -/
def toByte (n : Nat) : Byte := ⟨n % 256, Nat.mod_lt n (by decide)⟩

/-- Go conversion `int(u)` of an unsigned 64-bit value: two's-complement wrap-around. -/
def toInt (u : Uint64) : Int :=
  if u.val < 2 ^ 63 then (u.val : Int) else (u.val : Int) - 2 ^ 64

/-! ## Go standard library `encoding/hex` -/

namespace hex

/-- The constant `hextable = "0123456789abcdef"`. -/
def hextable : List Char := "0123456789abcdef".toList

/-- Library `hex.Encode`: every byte `v` becomes `hextable[v>>4]`, `hextable[v&0x0f]`. -/
def Encode : List Byte → List Char
  | [] => []
  | v :: rest => hextable.getD (v.val >>> 4) '0' :: hextable.getD (v.val &&& 0x0f) '0' :: Encode rest

/-- Library `fromHexChar`: the value of one hexadecimal digit, if it is one. -/
def fromHexChar (c : Char) : Option Nat :=
  if '0' ≤ c ∧ c ≤ '9' then some (c.toNat - ('0' : Char).toNat)
  else if 'a' ≤ c ∧ c ≤ 'f' then some (c.toNat - ('a' : Char).toNat + 10)
  else if 'A' ≤ c ∧ c ≤ 'F' then some (c.toNat - ('A' : Char).toNat + 10)
  else none

/-- Library `hex.Decode`: fails on odd length or on a non-hex character; otherwise
each pair of digits `a`, `b` gives the byte `(a << 4) | b`. -/
def Decode : List Char → Option (List Byte)
  | [] => some []
  | [_] => none
  | a :: b :: rest =>
    match fromHexChar a, fromHexChar b, Decode rest with
    | some x, some y, some bs => some (toByte ((x <<< 4) ||| y) :: bs)
    | _, _, _ => none

/-- A lowercase hexadecimal digit, a member of `hextable`. -/
def isLowerHexDigit (c : Char) : Bool := hextable.contains c

end hex

/-! ## go-ethereum `common/hexutil` -/

namespace hexutil

/-- Library `hexutil.Encode`: the bytes `"0x"` followed by `hex.Encode b`. -/
def Encode (b : List Byte) : String := String.mk ('0' :: 'x' :: hex.Encode b)

end hexutil

/-! ## go-ethereum `common` and `core/types` -/

namespace common

/-- The type `common.Hash`, a `[32]byte`. -/
structure Hash where
  bytes : List Byte
  len : bytes.length = 32
deriving DecidableEq

/-- Method `Hash.Hex`: `hexutil.Encode(h[:])`. -/
def Hash.Hex (h : Hash) : String := hexutil.Encode h.bytes

/-- The type `common.Address`, a `[20]byte`. -/
structure Address where
  bytes : List Byte
  len : bytes.length = 20
deriving DecidableEq

/-- Method `Address.Bytes`: `a[:]`. -/
def Address.Bytes (a : Address) : List Byte := a.bytes

/-- The zero value `common.Address{}`. -/
def Address.zero : Address := ⟨List.replicate 20 0, List.length_replicate _ _⟩

/-- The loop body of `Address.Hex` at index `i`: the character is moved to upper
case (`result[i] -= 32`) when it is a letter and the matching nibble of the
hash exceeds 7. -/
def checksumChar (hash : Hash) (i : Nat) (c : Char) : Char :=
  let hashByte := (hash.bytes.getD (i / 2) 0).val
  let hashByte := if i % 2 = 0 then hashByte >>> 4 else hashByte &&& 0xf
  if c > '9' ∧ hashByte > 7 then Char.ofNat (c.toNat - 32) else c

/-- The loop `for i := 0; i < len(result); i++` of `Address.Hex`, from index `i`. -/
def checksumFrom (hash : Hash) (i : Nat) : List Char → List Char
  | [] => []
  | c :: cs => checksumChar hash i c :: checksumFrom hash (i + 1) cs

/-- Method `Address.Hex`: the EIP55 mixed-case hex form. The Keccak-256 hash of
the lowercase hex digits is a parameter; it returns 32 bytes. (A hash whose
nibbles are all at most 7 gives the plain lowercase form.) -/
def Address.Hex (Keccak256 : List Byte → Hash) (a : Address) : String :=
  let unchecksummed := hex.Encode a.bytes
  let hash := Keccak256 (unchecksummed.map (fun c => toByte c.toNat))
  String.mk ('0' :: 'x' :: checksumFrom hash 0 unchecksummed)

end common

namespace types

/-- The type `types.Bloom`, a `[256]byte`. -/
structure Bloom where
  bytes : List Byte
  len : bytes.length = 256
deriving DecidableEq

/-- Method `Bloom.Bytes`: `b[:]`. -/
def Bloom.Bytes (b : Bloom) : List Byte := b.bytes

/-- The type `types.Receipt`. `Log` is the type `types.Log`; `Logs` is a slice of
pointers, each of which may be nil. -/
structure Receipt (Log : Type) where
  PostState : List Byte
  Status : Uint64
  CumulativeGasUsed : Uint64
  Bloom : Bloom
  Logs : List (Option Log)
  TxHash : common.Hash
  ContractAddress : common.Address
  GasUsed : Uint64

end types

namespace core

/-- The type `core.Receipt`, with the fields the converter fills in. `Log` is `core.Log`. -/
structure Receipt (Log : Type) where
  Bloom : String
  ContractAddress : String
  CumulativeGasUsed : Uint64
  GasUsed : Uint64
  Logs : List Log
  StateRoot : String
  TxHash : String
  Status : Int

end core

/-! ## `receipt_converter.go`

`ToCoreLog` (defined in another file of the package) and Keccak-256 are parameters. -/

section converter

variable {Log CoreLog : Type}

/-- Source `setContractAddress`. -/
def setContractAddress (Keccak256 : List Byte → common.Hash) (gethReceipt : types.Receipt Log) :
    String :=
  let emptyAddress := common.Address.zero.Bytes
  if gethReceipt.ContractAddress.Bytes = emptyAddress then ""
  else gethReceipt.ContractAddress.Hex Keccak256

/-- Source `dereferenceLogs`: starts from an empty slice and appends `ToCoreLog(*log)`
for each log pointer in turn; dereferencing a nil pointer fails. -/
def dereferenceLogs (ToCoreLog : Log → CoreLog) (gethReceipt : types.Receipt Log) :
    Option (List CoreLog) :=
  gethReceipt.Logs.foldl
    (fun acc log =>
      match acc, log with
      | some logs, some l => some (logs ++ [ToCoreLog l])
      | _, _ => none)
    (some [])

/-- Source `postStateOrStatus`. -/
def postStateOrStatus (gethReceipts : types.Receipt Log) : String × Int :=
  if gethReceipts.PostState.length ≠ 0 then (hexutil.Encode gethReceipts.PostState, -99)
  else ("", toInt gethReceipts.Status)

/-- Source `ToCoreReceipt`. The argument is a pointer: a nil receipt fails at the
first field access, a nil log inside `dereferenceLogs`. -/
def ToCoreReceipt (Keccak256 : List Byte → common.Hash) (ToCoreLog : Log → CoreLog)
    (gethReceipt : Option (types.Receipt Log)) : Option (core.Receipt CoreLog) :=
  match gethReceipt with
  | none => none
  | some r =>
    let bloom := hexutil.Encode r.Bloom.Bytes
    let (postState, status) := postStateOrStatus r
    match dereferenceLogs ToCoreLog r with
    | none => none
    | some logs =>
      let contractAddress := setContractAddress Keccak256 r
      some
        { Bloom := bloom
          ContractAddress := contractAddress
          CumulativeGasUsed := r.CumulativeGasUsed
          GasUsed := r.GasUsed
          Logs := logs
          StateRoot := postState
          TxHash := r.TxHash.Hex
          Status := status }

/-- Source `ToCoreReceipts`: starts from the nil slice and appends the converted
receipt for each element in turn; a failing conversion fails the whole call. -/
def ToCoreReceipts (Keccak256 : List Byte → common.Hash) (ToCoreLog : Log → CoreLog)
    (gethReceipts : List (Option (types.Receipt Log))) : Option (List (core.Receipt CoreLog)) :=
  gethReceipts.foldl
    (fun acc receipt =>
      match acc, ToCoreReceipt Keccak256 ToCoreLog receipt with
      | some coreReceipts, some coreReceipt => some (coreReceipts ++ [coreReceipt])
      | _, _ => none)
    (some [])

/-- A raw receipt is well formed when none of its log pointers is nil. -/
def WellFormed (r : types.Receipt Log) : Prop := ∀ l ∈ r.Logs, l ≠ none

end converter


/-! ## Block registry and token-supply repository

The repository code itself lives outside the files embedded above; only its
test (`repository_test.go`) is at hand. The store is modelled as two tables and
two id sequences. -/

namespace core

/-- Modelled from the spec: the type `core.Block` (its declaration is absent from the
embedded source; the test builds it from `Number` alone). "Block: natural key number,
mutable fields (hash, timestamp, parent reference, etc.)"; hash and timestamp
stand for the mutable fields. -/
structure Block where
  Number : Int
  Hash : String
  Time : Int
deriving DecidableEq

end core

/-- Modelled from the spec: a row of table
`blocks(id PK surrogate, number UNIQUE, hash, timestamp, …)`. -/
structure BlockRow where
  id : Int
  number : Int
  hash : String
  time : Int
deriving DecidableEq

/-- Modelled from the spec: a row of the derived table
`token_supply(id PK, block_id FK → blocks.id ON DELETE CASCADE, subject_key,
value_as_decimal_string)`; the column names are those of `TokenSupplyDBRow` in the
test. -/
structure TokenSupplyRow where
  id : Int
  block_id : Int
  token_address : String
  supply : String
deriving DecidableEq

/-- Modelled from the spec: the relational store, as both tables (in insertion order)
and the two sequences from which surrogate ids are "freshly assigned". -/
structure DB where
  blocks : List BlockRow
  token_supply : List TokenSupplyRow
  next_block_id : Int
  next_token_supply_id : Int
deriving DecidableEq

/-- The store returned by `test_helpers.CreateNewDatabase` once both tables are empty. -/
def DB.empty : DB :=
  { blocks := [], token_supply := [], next_block_id := 1, next_token_supply_id := 1 }

namespace every_block

/-- The type `every_block.TokenSupply`, as built by `supplyModel` in the test. -/
structure TokenSupply where
  Value : String
  TokenAddress : String
  BlockNumber : Int
deriving DecidableEq

/-- Modelled from the spec: the error taxonomy of the store, NotFoundError and
StorageError, each with its message. -/
inductive RepositoryError where
  | NotFoundError (message : String)
  | StorageError (message : String)
deriving DecidableEq

/-- The text of an error. -/
def RepositoryError.Error : RepositoryError → String
  | .NotFoundError message => message
  | .StorageError message => message

/-- Modelled from the spec: the message of the not-found error of `Create`, which
"embeds the literal block number"; the wording follows the test, which expects the
texts "sql" and "block number -1". -/
def GetBlockError (blockNumber : Int) : String :=
  "Error fetching block number " ++ toString blockNumber ++ ": sql: no rows in result set"

/-- Modelled from the spec: the message of the storage error of `Create`, which
"embeds both the block number and subject key"; the wording follows the test,
which expects the texts "pq" and "token_supply for block number". -/
def InsertTokenSupplyError (blockNumber : Int) (tokenAddress : String) : String :=
  "Error inserting token_supply for block number " ++ toString blockNumber ++
    " (" ++ tokenAddress ++ "): pq: constraint violation"

end every_block

/-- Modelled from the spec: "update mutable fields in place" on the row whose number is
that of `block`; the surrogate id and the number stay, other rows are untouched. -/
def BlockRow.update (block : core.Block) (row : BlockRow) : BlockRow :=
  if row.number = block.Number then { row with hash := block.Hash, time := block.Time } else row

/-- Modelled from the spec: the Block Registry `upsert(block) -> id`
(`BlockRepository.CreateOrUpdateBlock`, absent from the embedded source). "Look up by
natural key number. If absent, insert and return a freshly assigned id. If
present, update mutable fields in place and return the existing id." -/
def CreateOrUpdateBlock (db : DB) (block : core.Block) : DB × Int :=
  match db.blocks.find? (fun row => row.number == block.Number) with
  | some existing =>
    ({ db with
        blocks := db.blocks.map (BlockRow.update block) },
      existing.id)
  | none =>
    ({ db with
        blocks := db.blocks ++
          [{ id := db.next_block_id, number := block.Number, hash := block.Hash,
             time := block.Time }]
        next_block_id := db.next_block_id + 1 },
      db.next_block_id)

/-- Modelled from the spec: the Block Registry `delete(range-or-predicate)` (in the
test, the statement DELETE FROM blocks): "removes Block rows; the cascade
relationship removes all dependent DerivedRecords as a side effect", that is,
every derived row whose `block_id` is the id of a removed Block. -/
def deleteBlocks (selected : BlockRow → Bool) (db : DB) : DB :=
  { db with
    blocks := db.blocks.filter (fun row => !selected row)
    token_supply := db.token_supply.filter (fun t =>
      !db.blocks.any (fun row => selected row && row.id == t.block_id)) }

/-- Modelled from the spec: removal of derived rows on their own (in the test, the
statement DELETE FROM token_supply of `BeforeEach`); Block rows are untouched. -/
def deleteTokenSupply (selected : TokenSupplyRow → Bool) (db : DB) : DB :=
  { db with token_supply := db.token_supply.filter (fun t => !selected t) }

/-- Modelled from the spec: the Derived-Record Store `create(blockNumber, record)`
(`TokenSupplyRepository.Create`, absent from the embedded source). "Resolve blockNumber
→ Block.id via the Registry. If no Block exists for that number, fail with a
not-found error whose message embeds the literal block number. Insert the derived
row referencing Block.id. A constraint violation fails with a storage error. The
call never leaves a partial row." The constraints the store places on a new row,
given the rows already present, are the parameter `accepts`. The result is the
store after the call and the error (`none` for success). -/
def Create (accepts : List TokenSupplyRow → TokenSupplyRow → Bool) (db : DB)
    (supply : every_block.TokenSupply) : DB × Option every_block.RepositoryError :=
  match db.blocks.find? (fun row => row.number == supply.BlockNumber) with
  | none => (db, some (.NotFoundError (every_block.GetBlockError supply.BlockNumber)))
  | some block =>
    let row : TokenSupplyRow :=
      { id := db.next_token_supply_id, block_id := block.id,
        token_address := supply.TokenAddress, supply := supply.Value }
    if accepts db.token_supply row then
      ({ db with
          token_supply := db.token_supply ++ [row]
          next_token_supply_id := db.next_token_supply_id + 1 },
        none)
    else
      (db, some (.StorageError
        (every_block.InsertTokenSupplyError supply.BlockNumber supply.TokenAddress)))

/-- Modelled from the spec: the Derived-Record Store `missingBlocks(start, end)`
(`TokenSupplyRepository.MissingBlocks`, absent from the embedded source): "numbers in
[start, end] inclusive for which a Block row exists but no DerivedRecord
references it". -/
def MissingBlocks (db : DB) (startingBlock highestBlock : Int) : List Int :=
  (db.blocks.filter (fun row =>
    decide (startingBlock ≤ row.number) && decide (row.number ≤ highestBlock) &&
      !db.token_supply.any (fun t => t.block_id == row.id))).map (fun row => row.number)

/-- One operation on the store. -/
inductive Step : DB → DB → Prop where
  | createOrUpdateBlock (db : DB) (block : core.Block) :
      Step db (CreateOrUpdateBlock db block).1
  | deleteBlocks (db : DB) (selected : BlockRow → Bool) : Step db (deleteBlocks selected db)
  | deleteTokenSupply (db : DB) (selected : TokenSupplyRow → Bool) :
      Step db (deleteTokenSupply selected db)
  | create (db : DB) (accepts : List TokenSupplyRow → TokenSupplyRow → Bool)
      (supply : every_block.TokenSupply) : Step db (Create accepts db supply).1

/-- The store states that arise from the empty store by operations. -/
inductive Reachable : DB → Prop where
  | empty : Reachable DB.empty
  | step {db db2 : DB} : Reachable db → Step db db2 → Reachable db2

/-- Histories after `db` along which the derived row `t` is present after every
operation (the row is never deleted). -/
inductive KeepsRecord (t : TokenSupplyRow) : DB → DB → Prop where
  | refl (db : DB) : KeepsRecord t db db
  | step {db db2 db3 : DB} :
      KeepsRecord t db db2 → Step db2 db3 → t ∈ db3.token_supply → KeepsRecord t db db3

/-- Referential integrity: every derived row references an existing Block row. -/
def ForeignKey (db : DB) : Prop := ∀ t ∈ db.token_supply, ∃ row ∈ db.blocks, row.id = t.block_id

/-- Uniqueness of the natural key: no two Block rows have the same number. -/
def UniqueNumber (db : DB) : Prop := (db.blocks.map (fun row => row.number)).Nodup

/-- The text `part` occurs inside the text `message` (Go `strings.Contains`). -/
def containsText (message part : String) : Prop := part.data <:+: message.data

instance (message part : String) : Decidable (containsText message part) := by
  unfold containsText
  infer_instance

/-! ## Concrete inputs -/

namespace Example

/-- A stand-in for Keccak-256 on concrete inputs: the constant hash of 32 bytes `0xff`. -/
def Keccak256 (_ : List Byte) : common.Hash := ⟨List.replicate 32 255, List.length_replicate _ _⟩

/-- A stand-in for `ToCoreLog` on concrete inputs: logs are numbers, conversion adds one. -/
def ToCoreLog (l : Nat) : Nat := l + 1

/-- The all-zero bloom filter. -/
def zeroBloom : types.Bloom := ⟨List.replicate 256 0, List.length_replicate _ _⟩

/-- The all-zero hash. -/
def zeroHash : common.Hash := ⟨List.replicate 32 0, List.length_replicate _ _⟩

/-- The address whose bytes are all `0xab`. -/
def abAddress : common.Address := ⟨List.replicate 20 171, List.length_replicate _ _⟩

/-- A post-fork receipt: no state root, raw status `status`, one log. -/
def statusReceipt (status : Uint64) : types.Receipt Nat :=
  { PostState := [], Status := status, CumulativeGasUsed := 21000, Bloom := zeroBloom,
    Logs := [some 7], TxHash := zeroHash, ContractAddress := common.Address.zero,
    GasUsed := 21000 }

/-- A pre-fork receipt: state root `0xab01`, a contract creation at `abAddress`. -/
def rootReceipt : types.Receipt Nat :=
  { PostState := [171, 1], Status := 0, CumulativeGasUsed := 50000, Bloom := zeroBloom,
    Logs := [], TxHash := zeroHash, ContractAddress := abAddress, GasUsed := 29000 }

/-- A post-fork receipt with raw status 1, no logs and another gas figure. -/
def plainReceipt : types.Receipt Nat :=
  { PostState := [], Status := 1, CumulativeGasUsed := 74000, Bloom := zeroBloom,
    Logs := [], TxHash := zeroHash, ContractAddress := common.Address.zero,
    GasUsed := 53000 }

/-- The raw status `2^64 - 99`, which `int(...)` wraps to `-99`. -/
def wrapStatus : Uint64 := ⟨18446744073709551517, by decide⟩

/-- A store constraint that accepts every row. -/
def acceptAll (_ : List TokenSupplyRow) (_ : TokenSupplyRow) : Bool := true

/-- The store of the test after `createBlock(100)`. -/
def db100 : DB := (CreateOrUpdateBlock DB.empty { Number := 100, Hash := "0xaa", Time := 1 }).1

/-- The store after a token supply was also created for block 100. -/
def db100Supplied : DB :=
  (Create acceptAll db100 { Value := "0", TokenAddress := "", BlockNumber := 100 }).1

/-- The store after block 101 was also created: blocks 100 and 101 exist and only
100 has a token supply. -/
def db101 : DB :=
  (CreateOrUpdateBlock db100Supplied { Number := 101, Hash := "0xbb", Time := 2 }).1

end Example

/-! ## Lemmas on hex encoding and the converter -/



set_option maxRecDepth 100000 in
theorem hex.digits_roundtrip : ∀ v : Byte,
    fromHexChar (hextable.getD (v.val >>> 4) '0') = some (v.val >>> 4) ∧
    fromHexChar (hextable.getD (v.val &&& 0x0f) '0') = some (v.val &&& 0x0f) ∧
    toByte (((v.val >>> 4) <<< 4) ||| (v.val &&& 0x0f)) = v := by
  decide

set_option maxRecDepth 100000 in
theorem hex.digits_lower : ∀ v : Byte,
    isLowerHexDigit (hextable.getD (v.val >>> 4) '0') = true ∧
    isLowerHexDigit (hextable.getD (v.val &&& 0x0f) '0') = true := by
  decide

theorem hex.Decode_Encode (bs : List Byte) : hex.Decode (hex.Encode bs) = some bs := by
  induction bs with
  | nil => rfl
  | cons v rest ih =>
    obtain ⟨h1, h2, h3⟩ := hex.digits_roundtrip v
    simp only [hex.Encode, hex.Decode, h1, h2, ih, h3]

theorem hex.Encode_length (bs : List Byte) : (hex.Encode bs).length = 2 * bs.length := by
  induction bs with
  | nil => rfl
  | cons v rest ih => simp only [hex.Encode, List.length_cons, ih]; omega

theorem hex.Encode_lower (bs : List Byte) : ∀ c ∈ hex.Encode bs, isLowerHexDigit c = true := by
  induction bs with
  | nil => intro c hc; simp [hex.Encode] at hc
  | cons v rest ih =>
    intro c hc
    obtain ⟨h1, h2⟩ := hex.digits_lower v
    simp only [hex.Encode, List.mem_cons] at hc
    rcases hc with rfl | rfl | hc
    · exact h1
    · exact h2
    · exact ih c hc

theorem hex.Encode_injective {a b : List Byte} (h : hex.Encode a = hex.Encode b) : a = b := by
  have := congrArg hex.Decode h
  rw [hex.Decode_Encode, hex.Decode_Encode] at this
  exact Option.some.inj this

theorem hexutil.Encode_string_injective {a b : List Byte} (h : hexutil.Encode a = hexutil.Encode b) :
    a = b := by
  unfold hexutil.Encode at h
  injection h with h
  injection h with _ h
  injection h with _ h
  exact hex.Encode_injective h

theorem hexutil.Encode_ne_empty (b : List Byte) : hexutil.Encode b ≠ "" := by
  unfold hexutil.Encode
  intro h
  have := congrArg String.data h
  simp at this


theorem String.mk_0x (l : List Char) : String.mk ('0' :: 'x' :: l) = "0x" ++ String.mk l := rfl

theorem toInt_injective {a b : Uint64} (h : toInt a = toInt b) : a = b := by
  unfold toInt at h
  have ha := a.isLt
  have hb := b.isLt
  apply Fin.ext
  split_ifs at h <;> omega

theorem toInt_eq_sentinel (u : Uint64) : toInt u = -99 ↔ u.val = 2 ^ 64 - 99 := by
  unfold toInt
  have hu := u.isLt
  by_cases h : u.val < 2 ^ 63
  · rw [if_pos h]; omega
  · rw [if_neg h]; omega

section
variable {Log CoreLog : Type}

theorem dereferenceLogs_step_none (ToCoreLog : Log → CoreLog) (ls : List (Option Log)) :
    ls.foldl
      (fun acc log =>
        match acc, log with
        | some logs, some l => some (logs ++ [ToCoreLog l])
        | _, _ => none) none = none := by
  induction ls with
  | nil => rfl
  | cons l ls ih => simpa [List.foldl] using ih

theorem dereferenceLogs_fold (ToCoreLog : Log → CoreLog) (ls : List (Option Log))
    (h : ∀ l ∈ ls, l ≠ none) (acc : List CoreLog) :
    ls.foldl
      (fun acc log =>
        match acc, log with
        | some logs, some l => some (logs ++ [ToCoreLog l])
        | _, _ => none) (some acc)
      = some (acc ++ ls.filterMap (fun l => l.map ToCoreLog)) := by
  induction ls generalizing acc with
  | nil => simp
  | cons l ls ih =>
    cases l with
    | none => exact absurd rfl (h none (List.mem_cons_self _ _))
    | some x =>
      simp only [List.foldl, List.filterMap_cons, Option.map_some']
      rw [ih (fun l hl => h l (List.mem_cons_of_mem _ hl))]
      simp

theorem dereferenceLogs_wellFormed (ToCoreLog : Log → CoreLog) (r : types.Receipt Log)
    (h : WellFormed r) :
    dereferenceLogs ToCoreLog r = some (r.Logs.filterMap (fun l => l.map ToCoreLog)) := by
  unfold dereferenceLogs
  rw [dereferenceLogs_fold ToCoreLog r.Logs h []]
  simp

theorem ToCoreReceipt_wellFormed (Keccak256 : List Byte → common.Hash) (ToCoreLog : Log → CoreLog)
    (r : types.Receipt Log) (h : WellFormed r) :
    ToCoreReceipt Keccak256 ToCoreLog (some r) = some
      { Bloom := hexutil.Encode r.Bloom.Bytes
        ContractAddress := setContractAddress Keccak256 r
        CumulativeGasUsed := r.CumulativeGasUsed
        GasUsed := r.GasUsed
        Logs := r.Logs.filterMap (fun l => l.map ToCoreLog)
        StateRoot := (postStateOrStatus r).1
        TxHash := r.TxHash.Hex
        Status := (postStateOrStatus r).2 } := by
  simp only [ToCoreReceipt, dereferenceLogs_wellFormed ToCoreLog r h]

end

section address_lemmas

theorem common.checksumFrom_length (hash : common.Hash) (i : Nat) (l : List Char) :
    (common.checksumFrom hash i l).length = l.length := by
  induction l generalizing i with
  | nil => rfl
  | cons c cs ih => simp only [common.checksumFrom, List.length_cons, ih]

theorem hex.hextable_toLower : ∀ i : Fin 16,
    (hex.hextable.getD i.val '0').toLower = hex.hextable.getD i.val '0' ∧
    (hex.hextable.getD i.val '0' > '9' →
      (Char.ofNat ((hex.hextable.getD i.val '0').toNat - 32)).toLower
        = hex.hextable.getD i.val '0') := by
  decide

theorem common.upper_toLower (c : Char) (hc : hex.isLowerHexDigit c = true) (p : Prop)
    [Decidable p] : (if c > '9' ∧ p then Char.ofNat (c.toNat - 32) else c).toLower = c := by
  have hmem : c ∈ hex.hextable := by
    simpa [hex.isLowerHexDigit] using hc
  obtain ⟨i, hi, rfl⟩ := List.mem_iff_getElem.mp hmem
  have hi16 : i < 16 := hi
  rw [← List.getD_eq_getElem hex.hextable '0' hi]
  obtain ⟨h1, h2⟩ := hex.hextable_toLower ⟨i, hi16⟩
  by_cases h : hex.hextable.getD i '0' > '9' ∧ p
  · rw [if_pos h]
    exact h2 h.1
  · rw [if_neg h]
    exact h1

theorem common.checksumChar_toLower (hash : common.Hash) (i : Nat) (c : Char)
    (hc : hex.isLowerHexDigit c = true) : (common.checksumChar hash i c).toLower = c :=
  common.upper_toLower c hc _

theorem common.checksumFrom_toLower (hash : common.Hash) (i : Nat) (l : List Char)
    (hl : ∀ c ∈ l, hex.isLowerHexDigit c = true) :
    (common.checksumFrom hash i l).map Char.toLower = l := by
  induction l generalizing i with
  | nil => rfl
  | cons c cs ih =>
    simp only [common.checksumFrom, List.map_cons]
    rw [common.checksumChar_toLower hash i c (hl c (List.mem_cons_self _ _)),
      ih (i + 1) (fun d hd => hl d (List.mem_cons_of_mem _ hd))]

theorem common.Address.bytes_eq_zero_iff (a : common.Address) :
    a.Bytes = common.Address.zero.Bytes ↔ ∀ b ∈ a.Bytes, b = 0 := by
  unfold common.Address.Bytes common.Address.zero
  rw [List.eq_replicate_iff]
  exact ⟨fun h => h.2, fun h => ⟨a.len, h⟩⟩

theorem String.mk_ne_empty (c : Char) (l : List Char) : String.mk (c :: l) ≠ "" := by
  intro h
  have := congrArg String.data h
  simp at this

end address_lemmas

section list_lemmas

theorem List.filterMap_map_some {α β : Type} (g : α → Option β) (l : List α)
    (h : ∀ x ∈ l, ∃ y, g x = some y) : (l.filterMap g).map some = l.map g := by
  induction l with
  | nil => rfl
  | cons x xs ih =>
    obtain ⟨y, hy⟩ := h x (List.mem_cons_self _ _)
    rw [List.filterMap_cons_some hy, List.map_cons, List.map_cons,
      ih (fun z hz => h z (List.mem_cons_of_mem _ hz)), hy]

end list_lemmas

section receipts_lemmas

variable {Log CoreLog : Type}

theorem ToCoreReceipts_fold_none (Keccak256 : List Byte → common.Hash)
    (ToCoreLog : Log → CoreLog) (rs : List (Option (types.Receipt Log))) :
    rs.foldl
      (fun acc receipt =>
        match acc, ToCoreReceipt Keccak256 ToCoreLog receipt with
        | some coreReceipts, some coreReceipt => some (coreReceipts ++ [coreReceipt])
        | _, _ => none) none = none := by
  induction rs with
  | nil => rfl
  | cons r rs ih => simpa [List.foldl] using ih

theorem ToCoreReceipts_fold (Keccak256 : List Byte → common.Hash)
    (ToCoreLog : Log → CoreLog) (rs : List (Option (types.Receipt Log)))
    (h : ∀ r ∈ rs, ∃ c, ToCoreReceipt Keccak256 ToCoreLog r = some c)
    (acc : List (core.Receipt CoreLog)) :
    rs.foldl
      (fun acc receipt =>
        match acc, ToCoreReceipt Keccak256 ToCoreLog receipt with
        | some coreReceipts, some coreReceipt => some (coreReceipts ++ [coreReceipt])
        | _, _ => none) (some acc)
      = some (acc ++ rs.filterMap (ToCoreReceipt Keccak256 ToCoreLog)) := by
  induction rs generalizing acc with
  | nil => simp
  | cons r rs ih =>
    obtain ⟨c, hc⟩ := h r (List.mem_cons_self _ _)
    simp only [List.foldl, hc, List.filterMap_cons_some hc]
    rw [ih (fun z hz => h z (List.mem_cons_of_mem _ hz))]
    simp

theorem ToCoreReceipts_fold_some (Keccak256 : List Byte → common.Hash)
    (ToCoreLog : Log → CoreLog) (rs : List (Option (types.Receipt Log)))
    (acc cs : List (core.Receipt CoreLog))
    (h : rs.foldl
      (fun acc receipt =>
        match acc, ToCoreReceipt Keccak256 ToCoreLog receipt with
        | some coreReceipts, some coreReceipt => some (coreReceipts ++ [coreReceipt])
        | _, _ => none) (some acc) = some cs) :
    ∃ tail, cs = acc ++ tail ∧ tail.map some = rs.map (ToCoreReceipt Keccak256 ToCoreLog) := by
  induction rs generalizing acc with
  | nil =>
    refine ⟨[], ?_, rfl⟩
    simp only [List.foldl] at h
    rw [List.append_nil]
    exact (Option.some.inj h).symm
  | cons r rs ih =>
    cases hc : ToCoreReceipt Keccak256 ToCoreLog r with
    | none =>
      simp only [List.foldl, hc] at h
      rw [ToCoreReceipts_fold_none] at h
      exact absurd h (by simp)
    | some c =>
      simp only [List.foldl, hc] at h
      obtain ⟨tail, h1, h2⟩ := ih (acc ++ [c]) h
      refine ⟨c :: tail, ?_, ?_⟩
      · rw [h1]; simp
      · rw [List.map_cons, List.map_cons, h2, hc]

theorem ToCoreReceipt_eq_none_iff (Keccak256 : List Byte → common.Hash)
    (ToCoreLog : Log → CoreLog) (r : Option (types.Receipt Log)) :
    ToCoreReceipt Keccak256 ToCoreLog r = none ↔ ¬ ∃ x, r = some x ∧ WellFormed x := by
  constructor
  · rintro h ⟨x, rfl, hx⟩
    rw [ToCoreReceipt_wellFormed Keccak256 ToCoreLog x hx] at h
    exact absurd h (by simp)
  · intro h
    cases r with
    | none => rfl
    | some x =>
      have hx : ¬ WellFormed x := fun hx => h ⟨x, rfl, hx⟩
      unfold WellFormed at hx
      push_neg at hx
      obtain ⟨l, hl, hnone⟩ := hx
      subst hnone
      have hd : dereferenceLogs ToCoreLog x = none := by
        unfold dereferenceLogs
        obtain ⟨s, t, hst⟩ := List.append_of_mem hl
        rw [hst, List.foldl_append, List.foldl_cons]
        cases List.foldl
          (fun acc log =>
            match acc, log with
            | some logs, some l => some (logs ++ [ToCoreLog l])
            | _, _ => none) (some []) s <;>
          exact dereferenceLogs_step_none ToCoreLog t
      simp only [ToCoreReceipt, hd]

end receipts_lemmas

/-! ## Lemmas on the store -/

section store_lemmas

theorem BlockRow.update_id (block : core.Block) (row : BlockRow) :
    (BlockRow.update block row).id = row.id := by
  unfold BlockRow.update
  split_ifs <;> rfl

theorem BlockRow.update_number (block : core.Block) (row : BlockRow) :
    (BlockRow.update block row).number = row.number := by
  unfold BlockRow.update
  split_ifs <;> rfl

theorem mem_MissingBlocks (db : DB) (a b n : Int) :
    n ∈ MissingBlocks db a b ↔
      a ≤ n ∧ n ≤ b ∧ ∃ row ∈ db.blocks, row.number = n ∧
        ∀ t ∈ db.token_supply, t.block_id ≠ row.id := by
  unfold MissingBlocks
  simp only [List.mem_map, List.mem_filter, Bool.and_eq_true, decide_eq_true_eq,
    Bool.not_eq_true', List.any_eq_false, beq_iff_eq]
  constructor
  · rintro ⟨row, ⟨hrow, ⟨ha, hb⟩, hno⟩, rfl⟩
    exact ⟨ha, hb, row, hrow, rfl, fun t ht => hno t ht⟩
  · rintro ⟨ha, hb, row, hrow, rfl, hno⟩
    exact ⟨row, ⟨hrow, ⟨ha, hb⟩, fun t ht => hno t ht⟩, rfl⟩

theorem CreateOrUpdateBlock_cases (db : DB) (block : core.Block) :
    ((CreateOrUpdateBlock db block).1 =
        { db with blocks := db.blocks.map (BlockRow.update block) } ∧
      ∃ existing ∈ db.blocks, existing.number = block.Number ∧
        (CreateOrUpdateBlock db block).2 = existing.id) ∨
    ((CreateOrUpdateBlock db block).1 =
        { db with
          blocks := db.blocks ++
            [{ id := db.next_block_id, number := block.Number, hash := block.Hash,
               time := block.Time }]
          next_block_id := db.next_block_id + 1 } ∧
      (∀ row ∈ db.blocks, row.number ≠ block.Number) ∧
      (CreateOrUpdateBlock db block).2 = db.next_block_id) := by
  unfold CreateOrUpdateBlock
  cases hf : db.blocks.find? (fun row => row.number == block.Number) with
  | some existing =>
    left
    refine ⟨rfl, existing, List.mem_of_find?_eq_some hf, ?_, rfl⟩
    have := List.find?_some hf
    simpa using this
  | none =>
    right
    refine ⟨rfl, ?_, rfl⟩
    intro row hrow
    have := List.find?_eq_none.mp hf row hrow
    simpa using this

theorem Create_cases (accepts : List TokenSupplyRow → TokenSupplyRow → Bool) (db : DB)
    (supply : every_block.TokenSupply) :
    ((∀ row ∈ db.blocks, row.number ≠ supply.BlockNumber) ∧
      Create accepts db supply =
        (db, some (.NotFoundError (every_block.GetBlockError supply.BlockNumber)))) ∨
    (∃ block ∈ db.blocks, block.number = supply.BlockNumber ∧
      db.blocks.find? (fun row => row.number == supply.BlockNumber) = some block ∧
      ((Create accepts db supply =
          ({ db with
              token_supply := db.token_supply ++
                [{ id := db.next_token_supply_id, block_id := block.id,
                   token_address := supply.TokenAddress, supply := supply.Value }]
              next_token_supply_id := db.next_token_supply_id + 1 }, none)) ∨
        (Create accepts db supply =
          (db, some (.StorageError
            (every_block.InsertTokenSupplyError supply.BlockNumber supply.TokenAddress)))))) := by
  unfold Create
  cases hf : db.blocks.find? (fun row => row.number == supply.BlockNumber) with
  | none =>
    left
    refine ⟨?_, rfl⟩
    intro row hrow
    have := List.find?_eq_none.mp hf row hrow
    simpa using this
  | some block =>
    right
    refine ⟨block, List.mem_of_find?_eq_some hf, ?_, rfl, ?_⟩
    · have := List.find?_some hf
      simpa using this
    · simp only []
      split_ifs
      · left; rfl
      · right; rfl

end store_lemmas

section store_invariants

theorem Step.foreignKey {db db2 : DB} (hs : Step db db2) (h : ForeignKey db) : ForeignKey db2 := by
  cases hs with
  | createOrUpdateBlock block =>
    intro t ht
    rcases CreateOrUpdateBlock_cases db block with ⟨he, _⟩ | ⟨he, _⟩
    · rw [he] at ht ⊢
      obtain ⟨row, hrow, hid⟩ := h t ht
      exact ⟨BlockRow.update block row, List.mem_map_of_mem _ hrow,
        (BlockRow.update_id block row).trans hid⟩
    · rw [he] at ht ⊢
      obtain ⟨row, hrow, hid⟩ := h t ht
      exact ⟨row, List.mem_append_left _ hrow, hid⟩
  | deleteBlocks selected =>
    intro t ht
    simp only [Vulcanize.deleteBlocks, List.mem_filter, Bool.not_eq_true', List.any_eq_false,
      Bool.and_eq_true, beq_iff_eq, not_and] at ht ⊢
    obtain ⟨row, hrow, hid⟩ := h t ht.1
    refine ⟨row, ⟨hrow, ?_⟩, hid⟩
    by_contra hsel
    have hsel2 : selected row = true := by simpa using hsel
    exact ht.2 row hrow hsel2 hid
  | deleteTokenSupply selected =>
    intro t ht
    simp only [Vulcanize.deleteTokenSupply, List.mem_filter] at ht ⊢
    exact h t ht.1
  | create accepts supply =>
    intro t ht
    rcases Create_cases accepts db supply with ⟨_, he⟩ | ⟨block, hblock, _, _, he | he⟩
    · rw [he] at ht ⊢
      exact h t ht
    · rw [he] at ht ⊢
      simp only [List.mem_append, List.mem_singleton] at ht
      rcases ht with ht | rfl
      · exact h t ht
      · exact ⟨block, hblock, rfl⟩
    · rw [he] at ht ⊢
      exact h t ht

theorem Step.uniqueNumber {db db2 : DB} (hs : Step db db2) (h : UniqueNumber db) :
    UniqueNumber db2 := by
  unfold UniqueNumber at h ⊢
  cases hs with
  | createOrUpdateBlock block =>
    rcases CreateOrUpdateBlock_cases db block with ⟨he, _⟩ | ⟨he, hnew, _⟩
    · rw [he]
      simp only [List.map_map]
      have : ((fun row => row.number) ∘ BlockRow.update block) = fun row : BlockRow => row.number :=
        funext (fun row => BlockRow.update_number block row)
      rw [this]
      exact h
    · rw [he]
      simp only [List.map_append, List.map_cons, List.map_nil]
      refine List.Nodup.append h (List.nodup_singleton _) ?_
      intro n hn hn2
      simp only [List.mem_singleton] at hn2
      subst hn2
      obtain ⟨row, hrow, hnum⟩ := List.mem_map.mp hn
      exact hnew row hrow hnum
  | deleteBlocks selected =>
    exact List.Nodup.sublist (List.Sublist.map _ (List.filter_sublist _)) h
  | deleteTokenSupply selected => exact h
  | create accepts supply =>
    rcases Create_cases accepts db supply with ⟨_, he⟩ | ⟨block, _, _, _, he | he⟩ <;>
      rw [he] <;> exact h

theorem Reachable.invariants {db : DB} (h : Reachable db) : ForeignKey db ∧ UniqueNumber db := by
  induction h with
  | empty =>
    refine ⟨?_, ?_⟩
    · intro t ht
      simp [DB.empty] at ht
    · simp [UniqueNumber, DB.empty]
  | step _ hs ih => exact ⟨hs.foreignKey ih.1, hs.uniqueNumber ih.2⟩

theorem KeepsRecord.reachable {t : TokenSupplyRow} {db db2 : DB} (hk : KeepsRecord t db db2)
    (h : Reachable db) : Reachable db2 := by
  induction hk with
  | refl => exact h
  | step _ hs _ ih => exact Reachable.step ih hs

theorem KeepsRecord.mem {t : TokenSupplyRow} {db db2 : DB} (hk : KeepsRecord t db db2)
    (h : t ∈ db.token_supply) : t ∈ db2.token_supply := by
  cases hk with
  | refl => exact h
  | step _ _ hm => exact hm

theorem Step.keeps_block {t : TokenSupplyRow} {n : Int} {db db2 : DB} (hs : Step db db2)
    (hm : t ∈ db2.token_supply)
    (h : ∃ row ∈ db.blocks, row.id = t.block_id ∧ row.number = n) :
    ∃ row ∈ db2.blocks, row.id = t.block_id ∧ row.number = n := by
  obtain ⟨row, hrow, hid, hnum⟩ := h
  cases hs with
  | createOrUpdateBlock block =>
    rcases CreateOrUpdateBlock_cases db block with ⟨he, _⟩ | ⟨he, _⟩
    · rw [he]
      exact ⟨BlockRow.update block row, List.mem_map_of_mem _ hrow,
        (BlockRow.update_id block row).trans hid, (BlockRow.update_number block row).trans hnum⟩
    · rw [he]
      exact ⟨row, List.mem_append_left _ hrow, hid, hnum⟩
  | deleteBlocks selected =>
    simp only [Vulcanize.deleteBlocks, List.mem_filter, Bool.not_eq_true', List.any_eq_false,
      Bool.and_eq_true, beq_iff_eq, not_and] at hm ⊢
    refine ⟨row, ⟨hrow, ?_⟩, hid, hnum⟩
    by_contra hsel
    have hsel2 : selected row = true := by simpa using hsel
    exact hm.2 row hrow hsel2 hid
  | deleteTokenSupply selected => exact ⟨row, hrow, hid, hnum⟩
  | create accepts supply =>
    rcases Create_cases accepts db supply with ⟨_, he⟩ | ⟨block, _, _, _, he | he⟩ <;>
      rw [he] <;> exact ⟨row, hrow, hid, hnum⟩

theorem KeepsRecord.block_kept {t : TokenSupplyRow} {n : Int} {db db2 : DB}
    (hk : KeepsRecord t db db2)
    (h : ∃ row ∈ db.blocks, row.id = t.block_id ∧ row.number = n) :
    ∃ row ∈ db2.blocks, row.id = t.block_id ∧ row.number = n := by
  induction hk with
  | refl => exact h
  | step _ hs hm ih => exact hs.keeps_block hm ih

theorem not_mem_MissingBlocks_of_record {db : DB} (hu : UniqueNumber db) {t : TokenSupplyRow}
    (ht : t ∈ db.token_supply) {n : Int}
    (hb : ∃ row ∈ db.blocks, row.id = t.block_id ∧ row.number = n) (a b : Int) :
    n ∉ MissingBlocks db a b := by
  intro hmem
  obtain ⟨_, _, row2, hrow2, hnum2, hno⟩ := (mem_MissingBlocks db a b n).mp hmem
  obtain ⟨row, hrow, hid, hnum⟩ := hb
  have heq : row2 = row :=
    List.inj_on_of_nodup_map hu hrow2 hrow (hnum2.trans hnum.symm)
  subst heq
  exact hno t ht hid.symm

end store_invariants

/-! ## The claims on the converter -/

section converter_theorems

variable {Log CoreLog : Type}

/-- Claim C1 (as amended): for every well-formed raw receipt the canonical receipt
exists and has `Status = -99` exactly when its `StateRoot` is non-empty or the raw
status is `2^64 - 99`; so, whenever the raw status is not `2^64 - 99`,
`Status = -99` if and only if `StateRoot` is non-empty. -/
theorem C1_sentinel_iff_stateRoot (Keccak256 : List Byte → common.Hash)
    (ToCoreLog : Log → CoreLog) (r : types.Receipt Log) (h : WellFormed r) :
    ∃ c, ToCoreReceipt Keccak256 ToCoreLog (some r) = some c ∧
      (c.Status = -99 ↔ c.StateRoot ≠ "" ∨ r.Status.val = 2 ^ 64 - 99) ∧
      (r.Status.val ≠ 2 ^ 64 - 99 → (c.Status = -99 ↔ c.StateRoot ≠ "")) := by
  refine ⟨_, ToCoreReceipt_wellFormed Keccak256 ToCoreLog r h, ?_⟩
  have key : (postStateOrStatus r).2 = -99 ↔
      (postStateOrStatus r).1 ≠ "" ∨ r.Status.val = 2 ^ 64 - 99 := by
    unfold postStateOrStatus
    by_cases hp : r.PostState.length ≠ 0
    · rw [if_pos hp]
      exact ⟨fun _ => Or.inl (hexutil.Encode_ne_empty _), fun _ => rfl⟩
    · rw [if_neg hp]
      show toInt r.Status = -99 ↔ ("" : String) ≠ "" ∨ r.Status.val = 2 ^ 64 - 99
      rw [toInt_eq_sentinel]
      exact ⟨fun hs => Or.inr hs, fun hs => hs.elim (fun hne => absurd rfl hne) id⟩
  refine ⟨key, fun hs => ?_⟩
  exact ⟨fun hc => (key.mp hc).elim id (fun hw => absurd hw hs), fun hr => key.mpr (Or.inl hr)⟩

/-- Witness of C1 (amended) at the pre-fork example receipt. -/
theorem C1_sentinel_iff_stateRoot_witness :
    WellFormed Example.rootReceipt ∧
    ∃ c, ToCoreReceipt Example.Keccak256 Example.ToCoreLog (some Example.rootReceipt) = some c ∧
      (c.Status = -99 ↔ c.StateRoot ≠ "" ∨ Example.rootReceipt.Status.val = 2 ^ 64 - 99) ∧
      (Example.rootReceipt.Status.val ≠ 2 ^ 64 - 99 → (c.Status = -99 ↔ c.StateRoot ≠ "")) :=
  ⟨by simp [WellFormed, Example.rootReceipt],
   C1_sentinel_iff_stateRoot Example.Keccak256 Example.ToCoreLog Example.rootReceipt
     (by simp [WellFormed, Example.rootReceipt])⟩

/-- Counterexample to C1 as stated: the receipt with empty `PostState` and raw status
`2^64 - 99` is converted to a receipt with `Status = -99` and an empty `StateRoot`. -/
theorem C1_counterexample :
    ∃ c, ToCoreReceipt Example.Keccak256 Example.ToCoreLog
        (some (Example.statusReceipt Example.wrapStatus)) = some c ∧
      c.StateRoot = "" ∧ c.Status = -99 ∧ ¬ (c.Status = -99 ↔ c.StateRoot ≠ "") := by
  refine ⟨_, ToCoreReceipt_wellFormed Example.Keccak256 Example.ToCoreLog
    (Example.statusReceipt Example.wrapStatus) (by simp [WellFormed, Example.statusReceipt]), ?_⟩
  have h1 : (postStateOrStatus (Example.statusReceipt Example.wrapStatus)).1 = "" := rfl
  have h2 : (postStateOrStatus (Example.statusReceipt Example.wrapStatus)).2 = -99 := by
    decide
  refine ⟨h1, h2, fun hiff => ?_⟩
  exact (hiff.mp h2) h1

/-- Claim C2: for every well-formed raw receipt the canonical receipt exists; if
`PostState` has length > 0 its `StateRoot` is "0x" followed by the lowercase hex
digits of `PostState` and its `Status` is -99, whatever the raw status; otherwise
its `StateRoot` is empty and its `Status` is `int(r.Status)`. -/
theorem C2_finality_marker (Keccak256 : List Byte → common.Hash)
    (ToCoreLog : Log → CoreLog) (r : types.Receipt Log) (h : WellFormed r) :
    ∃ c, ToCoreReceipt Keccak256 ToCoreLog (some r) = some c ∧
      (0 < r.PostState.length →
        c.StateRoot = "0x" ++ String.mk (hex.Encode r.PostState) ∧
        (∀ ch ∈ hex.Encode r.PostState, hex.isLowerHexDigit ch = true) ∧
        hex.Decode (hex.Encode r.PostState) = some r.PostState ∧
        c.Status = -99) ∧
      (¬ 0 < r.PostState.length → c.StateRoot = "" ∧ c.Status = toInt r.Status) := by
  refine ⟨_, ToCoreReceipt_wellFormed Keccak256 ToCoreLog r h, ?_, ?_⟩
  · intro hp
    have hp2 : r.PostState.length ≠ 0 := by omega
    unfold postStateOrStatus
    rw [if_pos hp2]
    exact ⟨rfl, hex.Encode_lower _, hex.Decode_Encode _, rfl⟩
  · intro hp
    have hp2 : ¬ r.PostState.length ≠ 0 := by omega
    unfold postStateOrStatus
    rw [if_neg hp2]
    exact ⟨rfl, rfl⟩

/-- Witness of C2 at the pre-fork example receipt. -/
theorem C2_finality_marker_witness :
    WellFormed Example.rootReceipt ∧
    ∃ c, ToCoreReceipt Example.Keccak256 Example.ToCoreLog (some Example.rootReceipt) = some c ∧
      (0 < Example.rootReceipt.PostState.length →
        c.StateRoot = "0x" ++ String.mk (hex.Encode Example.rootReceipt.PostState) ∧
        (∀ ch ∈ hex.Encode Example.rootReceipt.PostState, hex.isLowerHexDigit ch = true) ∧
        hex.Decode (hex.Encode Example.rootReceipt.PostState)
          = some Example.rootReceipt.PostState ∧
        c.Status = -99) ∧
      (¬ 0 < Example.rootReceipt.PostState.length →
        c.StateRoot = "" ∧ c.Status = toInt Example.rootReceipt.Status) :=
  ⟨by simp [WellFormed, Example.rootReceipt],
   C2_finality_marker Example.Keccak256 Example.ToCoreLog Example.rootReceipt
     (by simp [WellFormed, Example.rootReceipt])⟩

end converter_theorems

section converter_theorems2

variable {Log CoreLog : Type}

/-- Claim C3: for every well-formed raw receipt the canonical receipt exists and its
`ContractAddress` is the empty string if and only if every byte of the raw
20-byte address is zero; when the address is not all-zero the field is
`Address.Hex`, which is non-empty and is "0x" followed by 40 digits that are,
up to letter case, the hex digits of the address bytes. -/
theorem C3_contractAddress_empty_iff_zero (Keccak256 : List Byte → common.Hash)
    (ToCoreLog : Log → CoreLog) (r : types.Receipt Log) (h : WellFormed r) :
    ∃ c, ToCoreReceipt Keccak256 ToCoreLog (some r) = some c ∧
      (c.ContractAddress = "" ↔ ∀ b ∈ r.ContractAddress.Bytes, b = 0) ∧
      ((¬ ∀ b ∈ r.ContractAddress.Bytes, b = 0) →
        c.ContractAddress = r.ContractAddress.Hex Keccak256 ∧
        c.ContractAddress ≠ "" ∧
        ∃ digits, c.ContractAddress = "0x" ++ String.mk digits ∧ digits.length = 40 ∧
          digits.map Char.toLower = hex.Encode r.ContractAddress.Bytes) := by
  refine ⟨_, ToCoreReceipt_wellFormed Keccak256 ToCoreLog r h, ?_, ?_⟩
  · show setContractAddress Keccak256 r = "" ↔ _
    unfold setContractAddress
    by_cases hz : r.ContractAddress.Bytes = common.Address.zero.Bytes
    · rw [if_pos hz]
      exact ⟨fun _ => (common.Address.bytes_eq_zero_iff _).mp hz, fun _ => rfl⟩
    · rw [if_neg hz]
      constructor
      · intro he
        exact absurd he (String.mk_ne_empty _ _)
      · intro hall
        exact absurd ((common.Address.bytes_eq_zero_iff _).mpr hall) hz
  · intro hnz
    have hz : ¬ r.ContractAddress.Bytes = common.Address.zero.Bytes :=
      fun hz => hnz ((common.Address.bytes_eq_zero_iff _).mp hz)
    show setContractAddress Keccak256 r = _ ∧ setContractAddress Keccak256 r ≠ "" ∧
      ∃ digits, setContractAddress Keccak256 r = "0x" ++ String.mk digits ∧ _
    unfold setContractAddress
    rw [if_neg hz]
    refine ⟨rfl, String.mk_ne_empty _ _, _, rfl, ?_, ?_⟩
    · rw [common.checksumFrom_length, hex.Encode_length, r.ContractAddress.len]
    · exact common.checksumFrom_toLower _ _ _ (hex.Encode_lower _)

/-- Witness of C3 at the example receipt that creates a contract at `0xabab…ab`. -/
theorem C3_contractAddress_empty_iff_zero_witness :
    WellFormed Example.rootReceipt ∧
    ∃ c, ToCoreReceipt Example.Keccak256 Example.ToCoreLog (some Example.rootReceipt) = some c ∧
      (c.ContractAddress = "" ↔ ∀ b ∈ Example.rootReceipt.ContractAddress.Bytes, b = 0) ∧
      ((¬ ∀ b ∈ Example.rootReceipt.ContractAddress.Bytes, b = 0) →
        c.ContractAddress = Example.rootReceipt.ContractAddress.Hex Example.Keccak256 ∧
        c.ContractAddress ≠ "" ∧
        ∃ digits, c.ContractAddress = "0x" ++ String.mk digits ∧ digits.length = 40 ∧
          digits.map Char.toLower = hex.Encode Example.rootReceipt.ContractAddress.Bytes) :=
  ⟨by simp [WellFormed, Example.rootReceipt],
   C3_contractAddress_empty_iff_zero Example.Keccak256 Example.ToCoreLog Example.rootReceipt
     (by simp [WellFormed, Example.rootReceipt])⟩

/-- Claim C7: `ToCoreReceipts` preserves length and order. The empty input gives the
empty result; for every input sequence, whenever the call returns, the result
has the same length as the input and its element at each index `i` is
`ToCoreReceipt` of the input at index `i`; and the call does return for every
sequence of non-nil well-formed receipts. -/
theorem C7_ToCoreReceipts_length_order (Keccak256 : List Byte → common.Hash)
    (ToCoreLog : Log → CoreLog) (rs : List (Option (types.Receipt Log))) :
    ToCoreReceipts Keccak256 ToCoreLog ([] : List (Option (types.Receipt Log))) = some [] ∧
    (∀ cs, ToCoreReceipts Keccak256 ToCoreLog rs = some cs →
      cs.length = rs.length ∧
      ∀ i (hi : i < rs.length),
        ToCoreReceipt Keccak256 ToCoreLog (rs.get ⟨i, hi⟩) = cs[i]?) ∧
    ((∀ r ∈ rs, ∃ x, r = some x ∧ WellFormed x) →
      ∃ cs, ToCoreReceipts Keccak256 ToCoreLog rs = some cs) := by
  refine ⟨rfl, ?_, ?_⟩
  · intro cs hcs
    unfold ToCoreReceipts at hcs
    obtain ⟨tail, h1, hmap⟩ := ToCoreReceipts_fold_some Keccak256 ToCoreLog rs [] cs hcs
    rw [List.nil_append] at h1
    subst h1
    constructor
    · have := congrArg List.length hmap
      simpa using this
    · intro i hi
      have := congrArg (fun l => l[i]?) hmap
      simp only [List.getElem?_map] at this
      rw [List.getElem?_eq_getElem hi] at this
      cases hc : cs[i]? with
      | none => rw [hc] at this; simp at this
      | some c =>
        rw [hc] at this
        simp only [Option.map_some'] at this
        exact (Option.some.inj this).symm
  · intro h
    have hsome : ∀ r ∈ rs, ∃ c, ToCoreReceipt Keccak256 ToCoreLog r = some c := by
      intro r hr
      obtain ⟨x, rfl, hx⟩ := h r hr
      exact ⟨_, ToCoreReceipt_wellFormed Keccak256 ToCoreLog x hx⟩
    refine ⟨rs.filterMap (ToCoreReceipt Keccak256 ToCoreLog), ?_⟩
    unfold ToCoreReceipts
    rw [ToCoreReceipts_fold Keccak256 ToCoreLog rs hsome []]
    rfl

/-- Witness of C7 at a block with a post-fork and a pre-fork receipt. -/
theorem C7_ToCoreReceipts_length_order_witness :
    (∀ r ∈ [some (Example.statusReceipt 1), some Example.rootReceipt],
      ∃ x, r = some x ∧ WellFormed x) ∧
    ∃ cs, ToCoreReceipts Example.Keccak256 Example.ToCoreLog
        [some (Example.statusReceipt 1), some Example.rootReceipt] = some cs ∧
      cs.length = [some (Example.statusReceipt 1), some Example.rootReceipt].length ∧
      ∀ i (hi : i < [some (Example.statusReceipt 1), some Example.rootReceipt].length),
        ToCoreReceipt Example.Keccak256 Example.ToCoreLog
          ([some (Example.statusReceipt 1), some Example.rootReceipt].get ⟨i, hi⟩) = cs[i]? :=
  ⟨by simp [WellFormed, Example.rootReceipt, Example.statusReceipt],
   ((C7_ToCoreReceipts_length_order Example.Keccak256 Example.ToCoreLog
      [some (Example.statusReceipt 1), some Example.rootReceipt]).2.2
        (by simp [WellFormed, Example.rootReceipt, Example.statusReceipt])).elim
     (fun cs hcs => ⟨cs, hcs,
       ((C7_ToCoreReceipts_length_order Example.Keccak256 Example.ToCoreLog
          [some (Example.statusReceipt 1), some Example.rootReceipt]).2.1 cs hcs)⟩)⟩

/-- Claim C8: for every well-formed raw receipt the canonical receipt exists and its
`Bloom` is "0x" followed by exactly 512 lowercase hexadecimal digits (514
characters in all) whose hex decoding is the 256 filter bytes; hence two
receipts with equal `Bloom` strings have equal filters. -/
theorem C8_bloom_hex (Keccak256 : List Byte → common.Hash)
    (ToCoreLog : Log → CoreLog) (r r2 : types.Receipt Log) (h : WellFormed r)
    (h2 : WellFormed r2) :
    ∃ c c2, ToCoreReceipt Keccak256 ToCoreLog (some r) = some c ∧
      ToCoreReceipt Keccak256 ToCoreLog (some r2) = some c2 ∧
      (∃ digits, c.Bloom = "0x" ++ String.mk digits ∧ digits.length = 512 ∧
        (∀ ch ∈ digits, hex.isLowerHexDigit ch = true) ∧
        hex.Decode digits = some r.Bloom.Bytes) ∧
      c.Bloom.length = 514 ∧
      (c.Bloom = c2.Bloom → r.Bloom = r2.Bloom) := by
  refine ⟨_, _, ToCoreReceipt_wellFormed Keccak256 ToCoreLog r h,
    ToCoreReceipt_wellFormed Keccak256 ToCoreLog r2 h2, ?_, ?_, ?_⟩
  · refine ⟨hex.Encode r.Bloom.Bytes, rfl, ?_, hex.Encode_lower _, hex.Decode_Encode _⟩
    rw [hex.Encode_length]
    show 2 * r.Bloom.bytes.length = 512
    rw [r.Bloom.len]
  · show (hex.Encode r.Bloom.Bytes).length + 1 + 1 = 514
    rw [hex.Encode_length]
    show 2 * r.Bloom.bytes.length + 1 + 1 = 514
    rw [r.Bloom.len]
  · intro he
    have hb : r.Bloom.bytes = r2.Bloom.bytes := hexutil.Encode_string_injective he
    cases hr : r.Bloom with
    | mk b1 l1 =>
      cases hr2 : r2.Bloom with
      | mk b2 l2 =>
        rw [hr, hr2] at hb
        simp only at hb
        subst hb
        rfl

/-- Witness of C8 at the two example receipts. -/
theorem C8_bloom_hex_witness :
    (WellFormed (Example.statusReceipt 1) ∧ WellFormed Example.rootReceipt) ∧
    ∃ c c2, ToCoreReceipt Example.Keccak256 Example.ToCoreLog
        (some (Example.statusReceipt 1)) = some c ∧
      ToCoreReceipt Example.Keccak256 Example.ToCoreLog (some Example.rootReceipt) = some c2 ∧
      (∃ digits, c.Bloom = "0x" ++ String.mk digits ∧ digits.length = 512 ∧
        (∀ ch ∈ digits, hex.isLowerHexDigit ch = true) ∧
        hex.Decode digits = some (Example.statusReceipt 1).Bloom.Bytes) ∧
      c.Bloom.length = 514 ∧
      (c.Bloom = c2.Bloom → (Example.statusReceipt 1).Bloom = Example.rootReceipt.Bloom) :=
  ⟨⟨by simp [WellFormed, Example.statusReceipt], by simp [WellFormed, Example.rootReceipt]⟩,
   C8_bloom_hex Example.Keccak256 Example.ToCoreLog (Example.statusReceipt 1) Example.rootReceipt
     (by simp [WellFormed, Example.statusReceipt]) (by simp [WellFormed, Example.rootReceipt])⟩

/-- Claim C9: the finality marker is round-trippable. If `postStateOrStatus` gives the
same (StateRoot, Status) pair for two raw receipts, their `PostState` byte
strings are equal, and if that `PostState` is empty their raw statuses are equal. -/
theorem C9_postStateOrStatus_injective (r1 r2 : types.Receipt Log)
    (h : postStateOrStatus r1 = postStateOrStatus r2) :
    r1.PostState = r2.PostState ∧ (r1.PostState = [] → r1.Status = r2.Status) := by
  unfold postStateOrStatus at h
  by_cases h1 : r1.PostState.length ≠ 0 <;> by_cases h2 : r2.PostState.length ≠ 0
  · rw [if_pos h1, if_pos h2] at h
    have hs := hexutil.Encode_string_injective (congrArg Prod.fst h)
    refine ⟨hs, fun he => ?_⟩
    rw [he] at h1
    exact absurd rfl h1
  · rw [if_pos h1, if_neg h2] at h
    exact absurd (congrArg Prod.fst h) (hexutil.Encode_ne_empty _)
  · rw [if_neg h1, if_pos h2] at h
    exact absurd (congrArg Prod.fst h).symm (hexutil.Encode_ne_empty _)
  · rw [if_neg h1, if_neg h2] at h
    have e1 : r1.PostState = [] := List.length_eq_zero.mp (not_not.mp h1)
    have e2 : r2.PostState = [] := List.length_eq_zero.mp (not_not.mp h2)
    exact ⟨e1.trans e2.symm, fun _ => toInt_injective (congrArg Prod.snd h)⟩

/-- Witness of C9: two post-fork receipts with raw status 1 that differ in logs and gas. -/
theorem C9_postStateOrStatus_injective_witness :
    postStateOrStatus (Example.statusReceipt 1) = postStateOrStatus Example.plainReceipt ∧
    ((Example.statusReceipt 1).PostState = Example.plainReceipt.PostState ∧
      ((Example.statusReceipt 1).PostState = [] →
        (Example.statusReceipt 1).Status = Example.plainReceipt.Status)) :=
  ⟨rfl, C9_postStateOrStatus_injective (Example.statusReceipt 1) Example.plainReceipt rfl⟩

end converter_theorems2

/-! ## The claims on the store -/

section store_theorems

/-- Claim C4: `MissingBlocks(a, b)` returns exactly the numbers `n` with `a ≤ n ≤ b` for
which a Block row exists that no token_supply row references; so it never returns
a number without a Block row nor a number outside `[a, b]`; and its result is
unchanged by inserting (upserting) a Block whose number lies outside `[a, b]`. -/
theorem C4_MissingBlocks_exact (db : DB) (a b : Int) :
    (∀ n, n ∈ MissingBlocks db a b ↔
      a ≤ n ∧ n ≤ b ∧ ∃ row ∈ db.blocks, row.number = n ∧
        ∀ t ∈ db.token_supply, t.block_id ≠ row.id) ∧
    (∀ n ∈ MissingBlocks db a b, ∃ row ∈ db.blocks, row.number = n) ∧
    (∀ n ∈ MissingBlocks db a b, a ≤ n ∧ n ≤ b) ∧
    (∀ block : core.Block, (block.Number < a ∨ b < block.Number) →
      MissingBlocks (CreateOrUpdateBlock db block).1 a b = MissingBlocks db a b) := by
  refine ⟨mem_MissingBlocks db a b, ?_, ?_, ?_⟩
  · intro n hn
    obtain ⟨_, _, row, hrow, hnum, _⟩ := (mem_MissingBlocks db a b n).mp hn
    exact ⟨row, hrow, hnum⟩
  · intro n hn
    obtain ⟨ha, hb, _⟩ := (mem_MissingBlocks db a b n).mp hn
    exact ⟨ha, hb⟩
  · intro block hout
    rcases CreateOrUpdateBlock_cases db block with ⟨he, _⟩ | ⟨he, _⟩
    · rw [he]
      unfold MissingBlocks
      simp only [List.filter_map, List.map_map]
      have h1 : ((fun row : BlockRow => row.number) ∘ BlockRow.update block)
          = fun row : BlockRow => row.number :=
        funext (fun row => BlockRow.update_number block row)
      have h2 : ((fun row : BlockRow =>
            decide (a ≤ row.number) && decide (row.number ≤ b) &&
              !db.token_supply.any (fun t => t.block_id == row.id)) ∘ BlockRow.update block)
          = fun row : BlockRow =>
            decide (a ≤ row.number) && decide (row.number ≤ b) &&
              !db.token_supply.any (fun t => t.block_id == row.id) := by
        funext row
        simp only [Function.comp, BlockRow.update_number, BlockRow.update_id]
      rw [h1, h2]
    · rw [he]
      unfold MissingBlocks
      simp only [List.filter_append, List.map_append]
      have hnew : List.filter (fun row : BlockRow =>
            decide (a ≤ row.number) && decide (row.number ≤ b) &&
              !db.token_supply.any (fun t => t.block_id == row.id))
          [{ id := db.next_block_id, number := block.Number, hash := block.Hash,
             time := block.Time }] = [] := by
        rw [List.filter_eq_nil_iff]
        intro row hrow
        simp only [List.mem_singleton] at hrow
        subst hrow
        simp only [Bool.and_eq_true, decide_eq_true_eq, not_and]
        intro h1 h2
        omega
      rw [hnew]
      simp

/-- Witness of C4: with Blocks 100 and 101 of which only 100 has a token supply,
`MissingBlocks(100, 101)` is `[101]`, and creating Block 102 leaves it unchanged. -/
theorem C4_MissingBlocks_exact_witness :
    ((102 : Int) < 100 ∨ (101 : Int) < 102) ∧
    MissingBlocks Example.db101 100 101 = [101] ∧
    MissingBlocks
      (CreateOrUpdateBlock Example.db101 { Number := 102, Hash := "0xcc", Time := 3 }).1 100 101
        = MissingBlocks Example.db101 100 101 :=
  ⟨by decide, by decide,
   (C4_MissingBlocks_exact Example.db101 100 101).2.2.2
     { Number := 102, Hash := "0xcc", Time := 3 } (by decide)⟩

/-- Claim C5: when no Block row has the number `N` of the record, `Create` fails with a
not-found error whose message contains the text "block number N" (the literal
number), and leaves the store, in particular the derived table, as it was. -/
theorem C5_Create_without_block (accepts : List TokenSupplyRow → TokenSupplyRow → Bool)
    (db : DB) (supply : every_block.TokenSupply)
    (h : ∀ row ∈ db.blocks, row.number ≠ supply.BlockNumber) :
    ∃ message, (Create accepts db supply).2 = some (.NotFoundError message) ∧
      containsText message ("block number " ++ toString supply.BlockNumber) ∧
      (Create accepts db supply).1 = db ∧
      (Create accepts db supply).1.token_supply = db.token_supply := by
  rcases Create_cases accepts db supply with ⟨_, he⟩ | ⟨block, hblock, hnum, _⟩
  · rw [he]
    refine ⟨_, rfl, ?_, rfl, rfl⟩
    unfold containsText every_block.GetBlockError
    refine ⟨"Error fetching ".data, ": sql: no rows in result set".data, ?_⟩
    simp only [String.data_append]
    rfl
  · exact absurd hnum (h block hblock)

/-- Witness of C5: the test case, block number -1 on a store that holds Block 100 only. -/
theorem C5_Create_without_block_witness :
    (∀ row ∈ Example.db100.blocks, row.number ≠ (-1 : Int)) ∧
    ∃ message,
      (Create Example.acceptAll Example.db100
        { Value := "", TokenAddress := "", BlockNumber := -1 }).2
          = some (.NotFoundError message) ∧
      containsText message ("block number " ++ toString (-1 : Int)) ∧
      (Create Example.acceptAll Example.db100
        { Value := "", TokenAddress := "", BlockNumber := -1 }).1 = Example.db100 ∧
      (Create Example.acceptAll Example.db100
        { Value := "", TokenAddress := "", BlockNumber := -1 }).1.token_supply
          = Example.db100.token_supply :=
  ⟨by decide,
   C5_Create_without_block Example.acceptAll Example.db100
     { Value := "", TokenAddress := "", BlockNumber := -1 } (by decide)⟩

/-- Claim C6: cascade. In every reachable store state every derived row references an
existing Block; deleting the Block with id `X` (or any set of Blocks that
includes one with id `X`) leaves no derived row with `block_id = X`; and after
all Block rows are deleted the derived table is empty (count 0). -/
theorem C6_delete_cascades (db : DB) (h : Reachable db) :
    (∀ t ∈ db.token_supply, ∃ row ∈ db.blocks, row.id = t.block_id) ∧
    (∀ X : Int, ∀ t ∈ (deleteBlocks (fun row => row.id == X) db).token_supply,
      t.block_id ≠ X) ∧
    (∀ (selected : BlockRow → Bool), ∀ row ∈ db.blocks, selected row = true →
      ∀ t ∈ (deleteBlocks selected db).token_supply, t.block_id ≠ row.id) ∧
    (deleteBlocks (fun _ => true) db).blocks = [] ∧
    (deleteBlocks (fun _ => true) db).token_supply = [] ∧
    (deleteBlocks (fun _ => true) db).token_supply.length = 0 := by
  have hfk := h.invariants.1
  have hall : (deleteBlocks (fun _ => true) db).token_supply = [] := by
    simp only [deleteBlocks, Bool.true_and]
    rw [List.filter_eq_nil_iff]
    intro t ht
    obtain ⟨row, hrow, hid⟩ := hfk t ht
    simp only [Bool.not_eq_true', List.any_eq_false, beq_iff_eq, not_forall, not_not]
    exact ⟨row, hrow, hid⟩
  refine ⟨hfk, ?_, ?_, ?_, hall, ?_⟩
  · intro X t ht hX
    simp only [deleteBlocks, List.mem_filter, Bool.not_eq_true', List.any_eq_false,
      Bool.and_eq_true, beq_iff_eq, not_and] at ht
    obtain ⟨row, hrow, hid⟩ := hfk t ht.1
    exact ht.2 row hrow (hid.trans hX) hid
  · intro selected row hrow hsel t ht hid
    simp only [deleteBlocks, List.mem_filter, Bool.not_eq_true', List.any_eq_false,
      Bool.and_eq_true, beq_iff_eq, not_and] at ht
    exact ht.2 row hrow hsel hid.symm
  · simp [deleteBlocks]
  · rw [hall]
    rfl

/-- Witness of C6: the store of the test, with Blocks 100 and 101 and a token supply
for Block 100. -/
theorem C6_delete_cascades_witness :
    Reachable Example.db101 ∧
    (∀ t ∈ Example.db101.token_supply, ∃ row ∈ Example.db101.blocks, row.id = t.block_id) ∧
    (∀ X : Int, ∀ t ∈ (deleteBlocks (fun row => row.id == X) Example.db101).token_supply,
      t.block_id ≠ X) ∧
    (∀ (selected : BlockRow → Bool), ∀ row ∈ Example.db101.blocks, selected row = true →
      ∀ t ∈ (deleteBlocks selected Example.db101).token_supply, t.block_id ≠ row.id) ∧
    (deleteBlocks (fun _ => true) Example.db101).blocks = [] ∧
    (deleteBlocks (fun _ => true) Example.db101).token_supply = [] ∧
    (deleteBlocks (fun _ => true) Example.db101).token_supply.length = 0 :=
  ⟨Reachable.step (Reachable.step (Reachable.step Reachable.empty
      (Step.createOrUpdateBlock _ _)) (Step.create _ _ _)) (Step.createOrUpdateBlock _ _),
   C6_delete_cascades Example.db101
    (Reachable.step (Reachable.step (Reachable.step Reachable.empty
      (Step.createOrUpdateBlock _ _)) (Step.create _ _ _)) (Step.createOrUpdateBlock _ _))⟩

/-- Claim C10: after `Create` succeeds for a record at block number `N` on a reachable
store, `MissingBlocks(N, N)` is empty, and `N` is in no `MissingBlocks(a, b)` with
`a ≤ N ≤ b` computed after any further operations that keep the created row. -/
theorem C10_created_not_missing (accepts : List TokenSupplyRow → TokenSupplyRow → Bool)
    (db db1 : DB) (supply : every_block.TokenSupply) (hr : Reachable db)
    (hc : Create accepts db supply = (db1, none)) :
    MissingBlocks db1 supply.BlockNumber supply.BlockNumber = [] ∧
    ∃ t, db1.token_supply = db.token_supply ++ [t] ∧
      ∀ db2, KeepsRecord t db1 db2 → ∀ a b : Int, a ≤ supply.BlockNumber →
        supply.BlockNumber ≤ b → supply.BlockNumber ∉ MissingBlocks db2 a b := by
  have hr1 : Reachable db1 := by
    have hs := Step.create db accepts supply
    rw [hc] at hs
    exact Reachable.step hr hs
  rcases Create_cases accepts db supply with ⟨_, he⟩ | ⟨block, hblock, hnum, _, he | he⟩
  · rw [he] at hc
    exact absurd (congrArg Prod.snd hc) (by simp)
  · rw [he] at hc
    have hdb1 := (congrArg Prod.fst hc).symm
    simp only at hdb1
    have hts : db1.token_supply = db.token_supply ++
        [{ id := db.next_token_supply_id, block_id := block.id,
           token_address := supply.TokenAddress, supply := supply.Value }] := by
      rw [hdb1]
    generalize hrow : (TokenSupplyRow.mk db.next_token_supply_id block.id supply.TokenAddress
      supply.Value) = created at hts
    have hid : created.block_id = block.id := by rw [← hrow]
    have hmem : created ∈ db1.token_supply := by
      rw [hts]
      exact List.mem_append_right _ (List.mem_singleton_self _)
    have hblk : ∃ row ∈ db1.blocks, row.id = created.block_id ∧
        row.number = supply.BlockNumber := by
      rw [hdb1]
      exact ⟨block, hblock, hid.symm, hnum⟩
    have key : ∀ db2, KeepsRecord created db1 db2 → ∀ a b : Int,
        supply.BlockNumber ∉ MissingBlocks db2 a b := fun db2 hk a b =>
      not_mem_MissingBlocks_of_record (hk.reachable hr1).invariants.2 (hk.mem hmem)
        (hk.block_kept hblk) a b
    refine ⟨?_, created, hts, fun db2 hk a b _ _ => key db2 hk a b⟩
    rw [List.eq_nil_iff_forall_not_mem]
    intro n hn
    have hrange := (mem_MissingBlocks db1 _ _ n).mp hn
    have hn2 : n = supply.BlockNumber := le_antisymm hrange.2.1 hrange.1
    subst hn2
    exact key db1 (KeepsRecord.refl db1) _ _ hn
  · rw [he] at hc
    exact absurd (congrArg Prod.snd hc) (by simp)

/-- Witness of C10: the test case, a token supply created for Block 100. -/
theorem C10_created_not_missing_witness :
    (Reachable Example.db100 ∧
      Create Example.acceptAll Example.db100
        { Value := "0", TokenAddress := "", BlockNumber := 100 }
          = (Example.db100Supplied, none)) ∧
    (MissingBlocks Example.db100Supplied 100 100 = [] ∧
    ∃ t, Example.db100Supplied.token_supply = Example.db100.token_supply ++ [t] ∧
      ∀ db2, KeepsRecord t Example.db100Supplied db2 → ∀ a b : Int, a ≤ 100 →
        100 ≤ b → (100 : Int) ∉ MissingBlocks db2 a b) :=
  ⟨⟨Reachable.step Reachable.empty (Step.createOrUpdateBlock _ _), by decide⟩,
   C10_created_not_missing Example.acceptAll Example.db100 Example.db100Supplied
     { Value := "0", TokenAddress := "", BlockNumber := 100 }
     (Reachable.step Reachable.empty (Step.createOrUpdateBlock _ _)) (by decide)⟩

end store_theorems

/-! ## Creation of derived rows -/

section create_lemmas

theorem CreateOrUpdateBlock_returns_row (db : DB) (block : core.Block) :
    ∃ row ∈ (CreateOrUpdateBlock db block).1.blocks,
      row.number = block.Number ∧ row.id = (CreateOrUpdateBlock db block).2 := by
  rcases CreateOrUpdateBlock_cases db block with ⟨he, existing, hmem, hnum, hid⟩ | ⟨he, _, hid⟩
  · rw [he, hid]
    exact ⟨BlockRow.update block existing, List.mem_map_of_mem _ hmem,
      (BlockRow.update_number block existing).trans hnum, BlockRow.update_id block existing⟩
  · rw [he, hid]
    exact ⟨_, List.mem_append_right _ (List.mem_singleton_self _), rfl, rfl⟩

theorem CreateOrUpdateBlock_token_supply (db : DB) (block : core.Block) :
    (CreateOrUpdateBlock db block).1.token_supply = db.token_supply := by
  rcases CreateOrUpdateBlock_cases db block with ⟨he, _⟩ | ⟨he, _⟩ <;> rw [he]

theorem find_number_of_unique {db : DB} (hu : UniqueNumber db) {row : BlockRow}
    (hrow : row ∈ db.blocks) :
    db.blocks.find? (fun r => r.number == row.number) = some row := by
  cases hf : db.blocks.find? (fun r => r.number == row.number) with
  | none =>
    have := List.find?_eq_none.mp hf row hrow
    simp at this
  | some found =>
    have hmem := List.mem_of_find?_eq_some hf
    have hnum : found.number = row.number := by
      have := List.find?_some hf
      simpa using this
    rw [List.inj_on_of_nodup_map hu hmem hrow hnum]

theorem Create_accepted (accepts : List TokenSupplyRow → TokenSupplyRow → Bool) (db : DB)
    (supply : every_block.TokenSupply) (row : BlockRow)
    (hf : db.blocks.find? (fun r => r.number == supply.BlockNumber) = some row)
    (hacc : accepts db.token_supply
      (TokenSupplyRow.mk db.next_token_supply_id row.id supply.TokenAddress supply.Value)
        = true) :
    Create accepts db supply =
      ({ db with
          token_supply := db.token_supply ++
            [TokenSupplyRow.mk db.next_token_supply_id row.id supply.TokenAddress supply.Value]
          next_token_supply_id := db.next_token_supply_id + 1 }, none) := by
  unfold Create
  rw [hf]
  simp only []
  rw [if_pos hacc]

end create_lemmas

section create_theorems

/-- Claim C11: on every reachable store, if a Block row exists for the number `N` of a
record that the store's constraints accept, `Create` succeeds and adds exactly
one derived row, whose `block_id` is the surrogate id of that Block row and whose
subject key and value are those of the record (Block rows are untouched); in
particular, right after the upsert of a Block with number `N`, the `block_id` is
the id that the upsert returned, and if the derived table was empty it then has
one row. -/
theorem C11_Create_adds_one_row (accepts : List TokenSupplyRow → TokenSupplyRow → Bool)
    (db : DB) (hr : Reachable db) (supply : every_block.TokenSupply) :
    (∀ row ∈ db.blocks, row.number = supply.BlockNumber →
      accepts db.token_supply
        (TokenSupplyRow.mk db.next_token_supply_id row.id supply.TokenAddress supply.Value)
          = true →
      (Create accepts db supply).2 = none ∧
      (Create accepts db supply).1.blocks = db.blocks ∧
      (∃ t, (Create accepts db supply).1.token_supply = db.token_supply ++ [t] ∧
        t.block_id = row.id ∧ t.token_address = supply.TokenAddress ∧
        t.supply = supply.Value) ∧
      (Create accepts db supply).1.token_supply.length = db.token_supply.length + 1 ∧
      (db.token_supply = [] → (Create accepts db supply).1.token_supply.length = 1)) ∧
    (∀ block : core.Block, block.Number = supply.BlockNumber →
      accepts (CreateOrUpdateBlock db block).1.token_supply
        (TokenSupplyRow.mk (CreateOrUpdateBlock db block).1.next_token_supply_id
          (CreateOrUpdateBlock db block).2 supply.TokenAddress supply.Value) = true →
      (Create accepts (CreateOrUpdateBlock db block).1 supply).2 = none ∧
      (∃ t, (Create accepts (CreateOrUpdateBlock db block).1 supply).1.token_supply
          = db.token_supply ++ [t] ∧
        t.block_id = (CreateOrUpdateBlock db block).2 ∧
        t.token_address = supply.TokenAddress ∧ t.supply = supply.Value) ∧
      (db.token_supply = [] →
        (Create accepts (CreateOrUpdateBlock db block).1 supply).1.token_supply.length = 1)) := by
  have general : ∀ d : DB, Reachable d → ∀ row ∈ d.blocks, row.number = supply.BlockNumber →
      accepts d.token_supply
        (TokenSupplyRow.mk d.next_token_supply_id row.id supply.TokenAddress supply.Value)
          = true →
      Create accepts d supply =
        ({ d with
            token_supply := d.token_supply ++
              [TokenSupplyRow.mk d.next_token_supply_id row.id supply.TokenAddress
                supply.Value]
            next_token_supply_id := d.next_token_supply_id + 1 }, none) := by
    intro d hd row hrow hnum hacc
    have hf := find_number_of_unique hd.invariants.2 hrow
    rw [hnum] at hf
    exact Create_accepted accepts d supply row hf hacc
  constructor
  · intro row hrow hnum hacc
    rw [general db hr row hrow hnum hacc]
    refine ⟨rfl, rfl, ⟨_, rfl, rfl, rfl, rfl⟩, ?_, ?_⟩
    · simp
    · intro he
      simp [he]
  · intro block hnum hacc
    obtain ⟨row, hrow, hrnum, hid⟩ := CreateOrUpdateBlock_returns_row db block
    have hr1 : Reachable (CreateOrUpdateBlock db block).1 :=
      Reachable.step hr (Step.createOrUpdateBlock db block)
    rw [← hid] at hacc
    rw [general _ hr1 row hrow (hrnum.trans hnum) hacc, CreateOrUpdateBlock_token_supply, hid]
    refine ⟨rfl, ⟨_, rfl, rfl, rfl, rfl⟩, ?_⟩
    intro he
    simp [he]

/-- Witness of C11: the test case. Block 100 is upserted into the empty store and gets
the id 1; the token supply then created for block number 100 is the only row and
has `block_id = 1`. -/
theorem C11_Create_adds_one_row_witness :
    Reachable DB.empty ∧
    (CreateOrUpdateBlock DB.empty { Number := 100, Hash := "0xaa", Time := 1 }).2 = 1 ∧
    ((Create Example.acceptAll
        (CreateOrUpdateBlock DB.empty { Number := 100, Hash := "0xaa", Time := 1 }).1
        { Value := "100", TokenAddress := "abc", BlockNumber := 100 }).2 = none ∧
      (∃ t, (Create Example.acceptAll
          (CreateOrUpdateBlock DB.empty { Number := 100, Hash := "0xaa", Time := 1 }).1
          { Value := "100", TokenAddress := "abc", BlockNumber := 100 }).1.token_supply
            = DB.empty.token_supply ++ [t] ∧
        t.block_id
          = (CreateOrUpdateBlock DB.empty { Number := 100, Hash := "0xaa", Time := 1 }).2 ∧
        t.token_address = "abc" ∧ t.supply = "100") ∧
      (DB.empty.token_supply = [] →
        (Create Example.acceptAll
          (CreateOrUpdateBlock DB.empty { Number := 100, Hash := "0xaa", Time := 1 }).1
          { Value := "100", TokenAddress := "abc", BlockNumber := 100 }).1.token_supply.length
            = 1)) :=
  ⟨Reachable.empty, by decide,
   (C11_Create_adds_one_row Example.acceptAll DB.empty Reachable.empty
      { Value := "100", TokenAddress := "abc", BlockNumber := 100 }).2
     { Number := 100, Hash := "0xaa", Time := 1 } rfl rfl⟩

end create_theorems

/-! ## Further claims on the converter -/

section converter_theorems3

variable {Log CoreLog : Type}

set_option maxRecDepth 100000 in
theorem hex.index_in_bounds :
    ∀ v : Byte, v.val >>> 4 < hex.hextable.length ∧ v.val &&& 0x0f < hex.hextable.length := by
  decide

/-- Claim C12: the normalizer never fails on well-formed input. `ToCoreReceipt` returns a
canonical receipt for every non-nil raw receipt without a nil log (and fails for
no other reason: it returns exactly on such input), `ToCoreReceipts` returns for
every sequence of such receipts, and the table and hash lookups made on the way
stay within bounds. -/
theorem C12_normalizer_never_fails (Keccak256 : List Byte → common.Hash)
    (ToCoreLog : Log → CoreLog) :
    (∀ r : types.Receipt Log, WellFormed r →
      ∃ c, ToCoreReceipt Keccak256 ToCoreLog (some r) = some c) ∧
    (∀ r : Option (types.Receipt Log),
      (ToCoreReceipt Keccak256 ToCoreLog r).isSome = true ↔ ∃ x, r = some x ∧ WellFormed x) ∧
    (∀ rs : List (Option (types.Receipt Log)), (∀ r ∈ rs, ∃ x, r = some x ∧ WellFormed x) →
      ∃ cs, ToCoreReceipts Keccak256 ToCoreLog rs = some cs) ∧
    (∀ v : Byte, v.val >>> 4 < hex.hextable.length ∧ v.val &&& 0x0f < hex.hextable.length) ∧
    (∀ (a : common.Address) (h : common.Hash) (i : Nat),
      i < (hex.Encode a.bytes).length → i / 2 < h.bytes.length) := by
  refine ⟨fun r h => ⟨_, ToCoreReceipt_wellFormed Keccak256 ToCoreLog r h⟩, ?_, ?_, ?_, ?_⟩
  · intro r
    constructor
    · intro hs
      by_contra hn
      rw [(ToCoreReceipt_eq_none_iff Keccak256 ToCoreLog r).mpr hn] at hs
      exact absurd hs (by simp)
    · rintro ⟨x, rfl, hx⟩
      rw [ToCoreReceipt_wellFormed Keccak256 ToCoreLog x hx]
      rfl
  · intro rs h
    have hsome : ∀ r ∈ rs, ∃ c, ToCoreReceipt Keccak256 ToCoreLog r = some c := by
      intro r hr
      obtain ⟨x, rfl, hx⟩ := h r hr
      exact ⟨_, ToCoreReceipt_wellFormed Keccak256 ToCoreLog x hx⟩
    refine ⟨rs.filterMap (ToCoreReceipt Keccak256 ToCoreLog), ?_⟩
    unfold ToCoreReceipts
    rw [ToCoreReceipts_fold Keccak256 ToCoreLog rs hsome []]
    rfl
  · exact hex.index_in_bounds
  · intro a h i hi
    rw [hex.Encode_length, a.len] at hi
    rw [h.len]
    omega

/-- Witness of C12 at the example receipts, alone and as a block of two. -/
theorem C12_normalizer_never_fails_witness :
    (WellFormed (Example.statusReceipt 1) ∧
      ∀ r ∈ [some (Example.statusReceipt 1), some Example.rootReceipt],
        ∃ x, r = some x ∧ WellFormed x) ∧
    (∃ c, ToCoreReceipt Example.Keccak256 Example.ToCoreLog
        (some (Example.statusReceipt 1)) = some c) ∧
    (∃ cs, ToCoreReceipts Example.Keccak256 Example.ToCoreLog
        [some (Example.statusReceipt 1), some Example.rootReceipt] = some cs) :=
  ⟨⟨by simp [WellFormed, Example.statusReceipt],
    by simp [WellFormed, Example.rootReceipt, Example.statusReceipt]⟩,
   (C12_normalizer_never_fails Example.Keccak256 Example.ToCoreLog).1
     (Example.statusReceipt 1) (by simp [WellFormed, Example.statusReceipt]),
   (C12_normalizer_never_fails Example.Keccak256 Example.ToCoreLog).2.2.1
     [some (Example.statusReceipt 1), some Example.rootReceipt]
     (by simp [WellFormed, Example.rootReceipt, Example.statusReceipt])⟩

/-- Claim C13: for every well-formed raw receipt with empty `PostState` the canonical
receipt exists; if the raw status `s` is below `2^63` (as 0 and 1 are) its
`Status` is `s` itself, a non-negative integer and so not the sentinel -99; and
its `Status` is -99 exactly when the raw status is `2^64 - 99`. -/
theorem C13_status_mode (Keccak256 : List Byte → common.Hash)
    (ToCoreLog : Log → CoreLog) (r : types.Receipt Log) (h : WellFormed r)
    (hp : r.PostState = []) :
    ∃ c, ToCoreReceipt Keccak256 ToCoreLog (some r) = some c ∧
      c.StateRoot = "" ∧
      (r.Status.val < 2 ^ 63 →
        c.Status = (r.Status.val : Int) ∧ 0 ≤ c.Status ∧ c.Status ≠ -99) ∧
      (c.Status = -99 ↔ r.Status.val = 2 ^ 64 - 99) := by
  refine ⟨_, ToCoreReceipt_wellFormed Keccak256 ToCoreLog r h, ?_⟩
  have hlen : ¬ r.PostState.length ≠ 0 := by
    rw [hp]
    simp
  have hpair : postStateOrStatus r = ("", toInt r.Status) := by
    unfold postStateOrStatus
    rw [if_neg hlen]
  show (postStateOrStatus r).1 = "" ∧
    (r.Status.val < 2 ^ 63 →
      (postStateOrStatus r).2 = (r.Status.val : Int) ∧ 0 ≤ (postStateOrStatus r).2 ∧
        (postStateOrStatus r).2 ≠ -99) ∧
    ((postStateOrStatus r).2 = -99 ↔ r.Status.val = 2 ^ 64 - 99)
  rw [hpair]
  refine ⟨rfl, ?_, toInt_eq_sentinel r.Status⟩
  intro hs
  have hv : toInt r.Status = (r.Status.val : Int) := by
    unfold toInt
    rw [if_pos hs]
  show toInt r.Status = _ ∧ 0 ≤ toInt r.Status ∧ toInt r.Status ≠ -99
  rw [hv]
  refine ⟨rfl, ?_, ?_⟩ <;> omega

/-- Witness of C13 at the post-fork example receipt with raw status 1. -/
theorem C13_status_mode_witness :
    (WellFormed (Example.statusReceipt 1) ∧ (Example.statusReceipt 1).PostState = []) ∧
    ∃ c, ToCoreReceipt Example.Keccak256 Example.ToCoreLog
        (some (Example.statusReceipt 1)) = some c ∧
      c.StateRoot = "" ∧
      ((Example.statusReceipt 1).Status.val < 2 ^ 63 →
        c.Status = ((Example.statusReceipt 1).Status.val : Int) ∧ 0 ≤ c.Status ∧
          c.Status ≠ -99) ∧
      (c.Status = -99 ↔ (Example.statusReceipt 1).Status.val = 2 ^ 64 - 99) :=
  ⟨⟨by simp [WellFormed, Example.statusReceipt], rfl⟩,
   C13_status_mode Example.Keccak256 Example.ToCoreLog (Example.statusReceipt 1)
     (by simp [WellFormed, Example.statusReceipt]) rfl⟩

/-- Claim C14: for every well-formed raw receipt the canonical receipt exists, its `Logs`
have the length of the raw `Logs`, its element at each index `i` is `ToCoreLog`
of the value the `i`-th raw log points to, and a receipt with no logs yields the
empty log sequence. -/
theorem C14_logs_converted_in_order (Keccak256 : List Byte → common.Hash)
    (ToCoreLog : Log → CoreLog) (r : types.Receipt Log) (h : WellFormed r) :
    ∃ c, ToCoreReceipt Keccak256 ToCoreLog (some r) = some c ∧
      c.Logs.length = r.Logs.length ∧
      (∀ i (hi : i < r.Logs.length), (r.Logs.get ⟨i, hi⟩).map ToCoreLog = c.Logs[i]?) ∧
      (r.Logs = [] → c.Logs = []) := by
  refine ⟨_, ToCoreReceipt_wellFormed Keccak256 ToCoreLog r h, ?_⟩
  have hsome : ∀ l ∈ r.Logs, ∃ y, l.map ToCoreLog = some y := by
    intro l hl
    cases l with
    | none => exact absurd rfl (h none hl)
    | some x => exact ⟨ToCoreLog x, rfl⟩
  have hmap := List.filterMap_map_some (fun l : Option Log => l.map ToCoreLog) r.Logs hsome
  show (r.Logs.filterMap (fun l => l.map ToCoreLog)).length = r.Logs.length ∧
    (∀ i (hi : i < r.Logs.length),
      (r.Logs.get ⟨i, hi⟩).map ToCoreLog
        = (r.Logs.filterMap (fun l => l.map ToCoreLog))[i]?) ∧
    (r.Logs = [] → r.Logs.filterMap (fun l => l.map ToCoreLog) = [])
  refine ⟨?_, ?_, ?_⟩
  · have := congrArg List.length hmap
    simpa using this
  · intro i hi
    have := congrArg (fun l => l[i]?) hmap
    simp only [List.getElem?_map] at this
    rw [List.getElem?_eq_getElem hi] at this
    cases hc : (r.Logs.filterMap (fun l => l.map ToCoreLog))[i]? with
    | none => rw [hc] at this; simp at this
    | some c =>
      rw [hc] at this
      simp only [Option.map_some'] at this
      exact (Option.some.inj this).symm
  · intro he
    rw [he]
    rfl

/-- Witness of C14 at the example receipt with one log. -/
theorem C14_logs_converted_in_order_witness :
    WellFormed (Example.statusReceipt 1) ∧
    ∃ c, ToCoreReceipt Example.Keccak256 Example.ToCoreLog
        (some (Example.statusReceipt 1)) = some c ∧
      c.Logs.length = (Example.statusReceipt 1).Logs.length ∧
      (∀ i (hi : i < (Example.statusReceipt 1).Logs.length),
        ((Example.statusReceipt 1).Logs.get ⟨i, hi⟩).map Example.ToCoreLog = c.Logs[i]?) ∧
      ((Example.statusReceipt 1).Logs = [] → c.Logs = []) :=
  ⟨by simp [WellFormed, Example.statusReceipt],
   C14_logs_converted_in_order Example.Keccak256 Example.ToCoreLog (Example.statusReceipt 1)
     (by simp [WellFormed, Example.statusReceipt])⟩

/-- Claim C15: for every well-formed raw receipt the canonical receipt exists with
`CumulativeGasUsed` and `GasUsed` equal to the raw counters and `TxHash` equal to
"0x" followed by the 64 lowercase hex digits of the raw hash; and replacing
`PostState`, `Status`, `Bloom`, `ContractAddress` and `Logs` by any other values
(no nil log) leaves these three fields as they are. -/
theorem C15_gas_and_txHash_pass_through (Keccak256 : List Byte → common.Hash)
    (ToCoreLog : Log → CoreLog) (r : types.Receipt Log) (h : WellFormed r) :
    ∃ c, ToCoreReceipt Keccak256 ToCoreLog (some r) = some c ∧
      c.CumulativeGasUsed = r.CumulativeGasUsed ∧
      c.GasUsed = r.GasUsed ∧
      c.TxHash = "0x" ++ String.mk (hex.Encode r.TxHash.bytes) ∧
      (hex.Encode r.TxHash.bytes).length = 64 ∧
      (∀ ch ∈ hex.Encode r.TxHash.bytes, hex.isLowerHexDigit ch = true) ∧
      hex.Decode (hex.Encode r.TxHash.bytes) = some r.TxHash.bytes ∧
      ∀ (postState : List Byte) (status : Uint64) (bloom : types.Bloom)
        (contractAddress : common.Address) (logs : List (Option Log)),
        (∀ l ∈ logs, l ≠ none) →
        ∃ c2, ToCoreReceipt Keccak256 ToCoreLog
            (some { r with PostState := postState, Status := status, Bloom := bloom,
                           ContractAddress := contractAddress, Logs := logs }) = some c2 ∧
          c2.CumulativeGasUsed = c.CumulativeGasUsed ∧ c2.GasUsed = c.GasUsed ∧
          c2.TxHash = c.TxHash := by
  refine ⟨_, ToCoreReceipt_wellFormed Keccak256 ToCoreLog r h, rfl, rfl, rfl, ?_,
    hex.Encode_lower _, hex.Decode_Encode _, ?_⟩
  · rw [hex.Encode_length, r.TxHash.len]
  · intro postState status bloom contractAddress logs hlogs
    exact ⟨_, ToCoreReceipt_wellFormed Keccak256 ToCoreLog _ hlogs, rfl, rfl, rfl⟩

/-- Witness of C15: the pre-fork example receipt, its five other fields replaced by
those of a post-fork receipt with a log. -/
theorem C15_gas_and_txHash_pass_through_witness :
    (WellFormed Example.rootReceipt ∧ ∀ l ∈ [some 7], l ≠ (none : Option Nat)) ∧
    ∃ c, ToCoreReceipt Example.Keccak256 Example.ToCoreLog (some Example.rootReceipt) = some c ∧
      c.CumulativeGasUsed = Example.rootReceipt.CumulativeGasUsed ∧
      c.GasUsed = Example.rootReceipt.GasUsed ∧
      c.TxHash = "0x" ++ String.mk (hex.Encode Example.rootReceipt.TxHash.bytes) ∧
      ∃ c2, ToCoreReceipt Example.Keccak256 Example.ToCoreLog
          (some { Example.rootReceipt with
                    PostState := [], Status := 1, Bloom := Example.zeroBloom,
                    ContractAddress := common.Address.zero, Logs := [some 7] }) = some c2 ∧
        c2.CumulativeGasUsed = c.CumulativeGasUsed ∧ c2.GasUsed = c.GasUsed ∧
        c2.TxHash = c.TxHash :=
  ⟨⟨by simp [WellFormed, Example.rootReceipt], by simp⟩,
   (C15_gas_and_txHash_pass_through Example.Keccak256 Example.ToCoreLog Example.rootReceipt
      (by simp [WellFormed, Example.rootReceipt])).elim
     (fun c hc => ⟨c, hc.1, hc.2.1, hc.2.2.1, hc.2.2.2.1,
       hc.2.2.2.2.2.2.2 [] 1 Example.zeroBloom common.Address.zero [some 7] (by simp)⟩)⟩

end converter_theorems3

end Vulcanize
